import Mathlib

/-!
Verification of the Grad-CAM core of the Medi-diagnose backend: a shallow
embedding of backend/app/cam.py and backend/app/utils.py. Machine floats
are modelled exactly over the rationals, extended with nan and the two
signed infinities so that the finiteness guard of the normalization step
is meaningful.
-/

/-- Floating point value model: a finite rational, nan, or a signed infinity. -/
inductive FP where
  | fin (q : ℚ)
  | nan
  | pinf
  | ninf
deriving DecidableEq

/-- Finiteness test, mirroring torch.isfinite on one element. -/
def FP.isFinite : FP → Bool
  | .fin _ => true
  | _ => false

/-- Underlying rational of a finite value; junk value 0 otherwise. -/
def FP.toQ : FP → ℚ
  | .fin q => q
  | _ => 0

/-- Addition with IEEE-style special value propagation. -/
def FP.add : FP → FP → FP
  | .nan, _ => .nan
  | _, .nan => .nan
  | .fin a, .fin b => .fin (a + b)
  | .fin _, .pinf => .pinf
  | .fin _, .ninf => .ninf
  | .pinf, .fin _ => .pinf
  | .ninf, .fin _ => .ninf
  | .pinf, .pinf => .pinf
  | .ninf, .ninf => .ninf
  | .pinf, .ninf => .nan
  | .ninf, .pinf => .nan

/-- Multiplication with IEEE-style special value propagation. -/
def FP.mul : FP → FP → FP
  | .nan, _ => .nan
  | _, .nan => .nan
  | .fin a, .fin b => .fin (a * b)
  | .fin a, .pinf => if a = 0 then .nan else if 0 < a then .pinf else .ninf
  | .fin a, .ninf => if a = 0 then .nan else if 0 < a then .ninf else .pinf
  | .pinf, .fin b => if b = 0 then .nan else if 0 < b then .pinf else .ninf
  | .ninf, .fin b => if b = 0 then .nan else if 0 < b then .ninf else .pinf
  | .pinf, .pinf => .pinf
  | .pinf, .ninf => .ninf
  | .ninf, .pinf => .ninf
  | .ninf, .ninf => .pinf

/-- Division with IEEE-style special value propagation. -/
def FP.div : FP → FP → FP
  | .nan, _ => .nan
  | _, .nan => .nan
  | .fin a, .fin b =>
      if b = 0 then (if a = 0 then .nan else if 0 < a then .pinf else .ninf)
      else .fin (a / b)
  | .fin _, .pinf => .fin 0
  | .fin _, .ninf => .fin 0
  | .pinf, .fin b => if 0 ≤ b then .pinf else .ninf
  | .ninf, .fin b => if 0 ≤ b then .ninf else .pinf
  | .pinf, .pinf => .nan
  | .pinf, .ninf => .nan
  | .ninf, .pinf => .nan
  | .ninf, .ninf => .nan

/-- Rectifier, mirroring torch.relu: max with zero, nan preserved. -/
def FP.relu : FP → FP
  | .fin a => .fin (max a 0)
  | .nan => .nan
  | .pinf => .pinf
  | .ninf => .fin 0

theorem FP.zero_add (x : FP) : FP.add (.fin 0) x = x := by
  cases x <;> simp [FP.add]

theorem FP.add_zero (x : FP) : FP.add x (.fin 0) = x := by
  cases x <;> simp [FP.add]

theorem FP.addAssoc (a b c : FP) :
    FP.add (FP.add a b) c = FP.add a (FP.add b c) := by
  cases a <;> cases b <;> cases c <;> simp [FP.add, add_assoc]

/-- A rectified value that is finite is a nonnegative rational. -/
theorem FP.relu_isFinite_nonneg (x : FP) (h : (FP.relu x).isFinite = true) :
    ∃ q, FP.relu x = .fin q ∧ 0 ≤ q := by
  cases x with
  | fin a => exact ⟨max a 0, rfl, le_max_right a 0⟩
  | nan => simp [FP.relu, FP.isFinite] at h
  | pinf => simp [FP.relu, FP.isFinite] at h
  | ninf => exact ⟨0, rfl, le_refl 0⟩

/-- Division of a finite value by a nonzero finite value. -/
theorem FP.div_fin_fin (a b : ℚ) (hb : b ≠ 0) :
    FP.div (.fin a) (.fin b) = .fin (a / b) := by
  simp [FP.div, hb]

/-- Sum of the values of f over the index range 0, ..., n-1, in the order the
source iterates (torch.sum over a dimension). -/
def sumR (n : ℕ) (f : ℕ → FP) : FP :=
  (List.range n).foldr (fun i acc => FP.add (f i) acc) (.fin 0)

/-- Sum of a list of values. -/
def listFPSum (l : List FP) : FP := l.foldr FP.add (.fin 0)

theorem listFPSum_append (l₁ l₂ : List FP) :
    listFPSum (l₁ ++ l₂) = FP.add (listFPSum l₁) (listFPSum l₂) := by
  induction l₁ with
  | nil => simp [listFPSum, FP.zero_add]
  | cons a t ih =>
      simp only [List.cons_append, listFPSum, List.foldr_cons] at *
      rw [ih, FP.addAssoc]

theorem sumR_eq_listFPSum_map (n : ℕ) (f : ℕ → FP) :
    sumR n f = listFPSum ((List.range n).map f) := by
  unfold sumR listFPSum
  rw [List.foldr_map]

/-- Tensor of arbitrary rank: a shape and data indexed by a full index list.
Models a torch tensor as captured by the hooks. -/
structure Tensor where
  shape : List ℕ
  data : List ℕ → FP

/-- Per channel importance weight: arithmetic mean of the gradient of batch
index 0 over its two spatial dimensions, from
weights = torch.mean(grads, dim=(1, 2)) on grads = gradients[0]. -/
def gradWeight (Hg Wg : ℕ) (gD : List ℕ → FP) (c : ℕ) : FP :=
  FP.div (sumR Hg (fun h => sumR Wg (fun w => gD [0, c, h, w])))
    (.fin ((Hg * Wg : ℕ) : ℚ))

/-- Map before normalization: weighted sum over channels of the activations of
batch index 0, rectified after the summation, from
cam = torch.relu(torch.sum(weights[:, None, None] * acts, dim=0)). -/
def camPreNorm (C Hg Wg : ℕ) (aD gD : List ℕ → FP) (h w : ℕ) : FP :=
  FP.relu (sumR C (fun c => FP.mul (gradWeight Hg Wg gD c) (aD [0, c, h, w])))

/-- All values of a height times width map, in row major order. -/
def mapVals (H W : ℕ) (f : ℕ → ℕ → FP) : List FP :=
  (List.range H).flatMap (fun h => (List.range W).map (fun w => f h w))

/-- torch.isfinite(cam).all(): every value of the map is finite. -/
def mapAllFinite (H W : ℕ) (f : ℕ → ℕ → FP) : Bool :=
  (mapVals H W f).all FP.isFinite

/-- cam.max() over the rational contents; for a nonempty rectified map this is
the maximum of the map. -/
def mapMaxQ (H W : ℕ) (f : ℕ → ℕ → FP) : ℚ :=
  ((mapVals H W f).map FP.toQ).foldr max 0

/-- Normalization step of get_cam: if every value is finite and the maximum
exceeds zero, divide by the maximum plus 1e-12; otherwise replace the map by
torch.zeros_like(cam). -/
def normalizeCam (H W : ℕ) (f : ℕ → ℕ → FP) : ℕ → ℕ → FP :=
  if mapAllFinite H W f && decide (0 < mapMaxQ H W f) then
    fun h w => FP.div (f h w) (.fin (mapMaxQ H W f + 1 / 1000000000000))
  else
    fun _ _ => .fin 0

/-- Full heatmap computation of get_cam from the two captured tensors, after
the capture and rank checks have passed. -/
def gradCamMap (C Ha Wa Hg Wg : ℕ) (aD gD : List ℕ → FP) : ℕ → ℕ → FP :=
  normalizeCam Ha Wa (camPreNorm C Hg Wg aD gD)

theorem mem_mapVals {H W h w : ℕ} (f : ℕ → ℕ → FP) (hh : h < H) (hw : w < W) :
    f h w ∈ mapVals H W f := by
  unfold mapVals
  exact List.mem_flatMap.mpr
    ⟨h, List.mem_range.mpr hh, List.mem_map.mpr ⟨w, List.mem_range.mpr hw, rfl⟩⟩

theorem le_foldr_max (l : List ℚ) (init a : ℚ) (h : a ∈ l) :
    a ≤ l.foldr max init := by
  induction l with
  | nil => cases h
  | cons b t ih =>
      rcases List.mem_cons.mp h with hb | ht
      · subst hb; exact le_max_left a (t.foldr max init)
      · exact le_trans (ih ht) (le_max_right b (t.foldr max init))

/-- Core range property of the normalization: whenever the input map is
rectified (finite entries are nonnegative), every in-bounds output value is a
rational in the closed interval from 0 to 1. -/
theorem normalizeCam_mem_unitInterval (H W : ℕ) (f : ℕ → ℕ → FP)
    (hrect : ∀ h w, (f h w).isFinite = true → ∃ q, f h w = .fin q ∧ 0 ≤ q)
    (h w : ℕ) (hh : h < H) (hw : w < W) :
    ∃ q, normalizeCam H W f h w = .fin q ∧ 0 ≤ q ∧ q ≤ 1 := by
  unfold normalizeCam
  by_cases hc : (mapAllFinite H W f && decide (0 < mapMaxQ H W f)) = true
  · rw [if_pos hc]
    rw [Bool.and_eq_true] at hc
    have hfin : mapAllFinite H W f = true := hc.1
    have hmax : 0 < mapMaxQ H W f := of_decide_eq_true hc.2
    have hmemf : (f h w).isFinite = true := by
      have := List.all_eq_true.mp hfin
      exact this _ (mem_mapVals f hh hw)
    obtain ⟨q, hq, hq0⟩ := hrect h w hmemf
    have hle : q ≤ mapMaxQ H W f := by
      have hmem : FP.toQ (f h w) ∈ (mapVals H W f).map FP.toQ :=
        List.mem_map.mpr ⟨f h w, mem_mapVals f hh hw, rfl⟩
      have := le_foldr_max ((mapVals H W f).map FP.toQ) 0 (FP.toQ (f h w)) hmem
      rwa [hq] at this
    have hden : (0 : ℚ) < mapMaxQ H W f + 1 / 1000000000000 := by positivity
    refine ⟨q / (mapMaxQ H W f + 1 / 1000000000000), ?_, ?_, ?_⟩
    · rw [hq, FP.div_fin_fin _ _ (ne_of_gt hden)]
    · exact div_nonneg hq0 (le_of_lt hden)
    · rw [div_le_one hden]
      have : (0 : ℚ) < 1 / 1000000000000 := by norm_num
      linarith
  · rw [if_neg hc]
    exact ⟨0, rfl, le_refl 0, zero_le_one⟩

/-- The rectified map produced by camPreNorm satisfies the rectification
hypothesis of the normalization range lemma. -/
theorem camPreNorm_rect (C Hg Wg : ℕ) (aD gD : List ℕ → FP) :
    ∀ h w, (camPreNorm C Hg Wg aD gD h w).isFinite = true →
      ∃ q, camPreNorm C Hg Wg aD gD h w = .fin q ∧ 0 ≤ q := by
  intro h w hf
  exact FP.relu_isFinite_nonneg _ hf

/-- Mutable state of a GradCAM engine together with the shared model state it
can observe: number of forward hooks attached to the target layer, the two
capture buffers, and the training flag of the model. -/
structure EngineState where
  targetHooks : ℕ
  activations : Option Tensor
  gradients : Option Tensor
  modelTraining : Bool

/-- Outcome of the external model operations during one get_cam call: the
logits of the forward pass (none when the forward pass raises), the tensors
the two hooks would capture (none when the target layer is not on the path
from input to output), and whether the backward pass raises. -/
structure Env where
  forwardResult : Option (List ℚ)
  actCapture : Option Tensor
  gradCapture : Option Tensor
  backwardRaises : Bool

/-- Reported failures of get_cam, distinguished by the printed diagnostic. -/
inductive CamFailure where
  | noTargetLayer
  | captureMissing
  | unexpectedTensorRank (actShape gradShape : List ℕ)
deriving DecidableEq

/-- Exceptions that propagate out of get_cam uncaught. -/
inductive CamExn where
  | forwardError
  | classIndexError
  | backwardError
deriving DecidableEq

/-- Ways a get_cam call ends: a returned heatmap, a reported failure
(None return with a printed reason), or a propagating exception. -/
inductive CamOutcome where
  | heatmap (H W : ℕ) (f : ℕ → ℕ → FP)
  | failure (e : CamFailure)
  | raised (e : CamExn)

/-- The method _clear_captures: both buffers set to None. -/
def clearCaptures (s : EngineState) : EngineState :=
  { s with activations := none, gradients := none }

/-- State at the moment the forward hook is registered: captures cleared first
(line 86), then register_forward_hook increments the hook count (line 98). -/
def instrumentState (s : EngineState) : EngineState :=
  { clearCaptures s with targetHooks := (clearCaptures s).targetHooks + 1 }

/-- hook_handle.remove(): the forward hook is detached. -/
def releaseHook (s : EngineState) : EngineState :=
  { s with targetHooks := s.targetHooks - 1 }

/-- First index of the maximal logit, mirroring torch.argmax on a batch of
one. -/
def argmaxIdx (l : List ℚ) : ℕ :=
  (List.range l.length).foldl
    (fun best i => if l.getD best 0 < l.getD i 0 then i else best) 0

/-- Class the backward pass is seeded from: the supplied index as is, or the
argmax of the logits. -/
def selectedClass (logits : List ℚ) (tc : Option ℕ) : ℕ :=
  match tc with
  | some t => t
  | none => argmaxIdx logits

/-- Tail of get_cam after the backward pass: remove the hook, then check the
capture buffers (line 120), then the tensor ranks (line 127), then compute
the heatmap. -/
def getCamPostPass (s4 : EngineState) : EngineState × CamOutcome :=
  match s4.activations, s4.gradients with
  | none, _ => (releaseHook s4, .failure .captureMissing)
  | some _, none => (releaseHook s4, .failure .captureMissing)
  | some a, some g =>
      if a.shape.length != 4 || g.shape.length != 4 then
        (releaseHook s4, .failure (.unexpectedTensorRank a.shape g.shape))
      else
        (releaseHook s4,
          .heatmap (a.shape.getD 2 0) (a.shape.getD 3 0)
            (gradCamMap (a.shape.getD 1 0) (a.shape.getD 2 0) (a.shape.getD 3 0)
              (g.shape.getD 2 0) (g.shape.getD 3 0) a.data g.data))

/-- Steps of get_cam after the forward pass succeeded: class selection
(raises when the selected index is out of range, line 111), backward pass
(may raise, line 112), then the gradient hook fires if and only if the
forward hook had fired. -/
def getCamAfterForward (env : Env) (tc : Option ℕ) (logits : List ℚ)
    (s3 : EngineState) : EngineState × CamOutcome :=
  if selectedClass logits tc < logits.length then
    if env.backwardRaises then (s3, .raised .backwardError)
    else
      getCamPostPass
        { s3 with
          gradients := if s3.activations.isSome then env.gradCapture else none }
  else (s3, .raised .classIndexError)

/-- Steps of get_cam after the hook is registered: forward pass (may raise,
line 102), during which the forward hook stores the layer output. -/
def getCamAfterInstrument (env : Env) (tc : Option ℕ) (s2 : EngineState) :
    EngineState × CamOutcome :=
  match env.forwardResult with
  | none => (s2, .raised .forwardError)
  | some logits =>
      getCamAfterForward env tc logits { s2 with activations := env.actCapture }

/-- The method get_cam as a state transformer: the early target check
(line 82), then clear captures, register the hook, and run the pass. -/
def getCam (hasTarget : Bool) (env : Env) (tc : Option ℕ) (s : EngineState) :
    EngineState × CamOutcome :=
  if hasTarget then getCamAfterInstrument env tc (instrumentState s)
  else (s, .failure .noTargetLayer)

/-- Model structure: a tree of named sub-modules. Convolutional layers and
other leaf layers carry a tag distinguishing them; containers hold their
children as named attributes in definition order. -/
inductive NNModule where
  | conv2d (tag : ℕ)
  | leaf (tag : ℕ)
  | container (children : List (String × NNModule))

/-- isinstance(module, nn.Conv2d). -/
def isConv : NNModule → Bool
  | .conv2d _ => true
  | _ => false

/-- getattr on a module: look up a directly named child. -/
def getAttr : NNModule → String → Option NNModule
  | .container cs, n => (cs.find? (fun p => p.1 == n)).map Prod.snd
  | _, _ => none

/-- Name joining of torch named_modules: the root has the empty name and a
child of a named module gets a dotted name. -/
def joinName (base n : String) : String :=
  if base = "" then n else base ++ "." ++ n

mutual
/-- named_modules enumeration: the module itself first, then every descendant
in definition order with dotted names. -/
def namedModulesAux : NNModule → String → List (String × NNModule)
  | .container cs, base => (base, .container cs) :: namedModulesList cs base
  | m, base => [(base, m)]

/-- Enumeration of a list of named children in definition order. -/
def namedModulesList : List (String × NNModule) → String → List (String × NNModule)
  | [], _ => []
  | (n, c) :: rest, base =>
      namedModulesAux c (joinName base n) ++ namedModulesList rest base
end

/-- model.named_modules() with the conventional empty root name. -/
def namedModules (m : NNModule) : List (String × NNModule) := namedModulesAux m ""

/-- Candidate list built from the features region by _auto_select_target_layer:
every Conv2d under model.features in enumeration order, each named with the
prefix from f-string interpolation of the features child names. -/
def featuresConvCandidates (model : NNModule) : List (String × NNModule) :=
  match getAttr model "features" with
  | some f =>
      (namedModules f).filterMap
        (fun p => if isConv p.2 then some ("features." ++ p.1, p.2) else none)
  | none => []

/-- The method _auto_select_target_layer: Conv2d candidates under
model.features, falling back to a scan of the whole model when that list is
empty, picking the last candidate; none when no Conv2d exists anywhere. -/
def autoSelectTargetLayer (model : NNModule) : Option (String × NNModule) :=
  let c1 := featuresConvCandidates model
  let cands :=
    if c1.isEmpty then (namedModules model).filter (fun p => isConv p.2)
    else c1
  cands.getLast?

/-- The method _get_module_by_name: walk the attribute hierarchy segment by
segment, returning none as soon as a segment is missing. The dotted path is
modelled by its list of segments, the result of the split on dots. -/
def getModuleByName (root : NNModule) (parts : List String) : Option NNModule :=
  parts.foldl
    (fun cur part =>
      match cur with
      | none => none
      | some m => getAttr m part)
    (some root)

/-- Construction failures of the GradCAM engine, raised as ValueError. -/
inductive InitError where
  | layerNotFound (path : List String)
  | noTargetLayerFound
deriving DecidableEq

/-- GradCAM.__init__: line 39 calls model.eval() first, setting the training
flag of the model to false; then the target layer is resolved from the given
dotted path, or auto-selected when no path is given. The first component is
the training flag of the model after the construction attempt. -/
def gradCamInit (model : NNModule) (targetLayer : Option (List String))
    (_training : Bool) : Bool × Except InitError (String × NNModule × EngineState) :=
  (false,
    match targetLayer with
    | some parts =>
        match getModuleByName model parts with
        | none => .error (.layerNotFound parts)
        | some m =>
            .ok (String.intercalate "." parts, m, ⟨0, none, none, false⟩)
    | none =>
        match autoSelectTargetLayer model with
        | none => .error .noTargetLayerFound
        | some (n, m) => .ok (n, m, ⟨0, none, none, false⟩))

/-- RGBA pixel with 8-bit channels. -/
structure Pixel where
  r : ℕ
  g : ℕ
  b : ℕ
  a : ℕ
deriving DecidableEq

/-- np.clip(heatmap, 0.0, 1.0) on one value. -/
def clip01 (q : ℚ) : ℚ := min 1 (max 0 q)

/-- Quantization (heatmap * 255.0 + 0.5).astype(np.uint8) on one clipped
value; truncation toward zero equals the floor on these nonnegative inputs. -/
def heatToU8 (q : ℚ) : ℕ := ⌊clip01 q * 255 + 1 / 2⌋.toNat

/-- The point table of the alpha channel:
int(min(255, max(0, v * (alpha_scale / 255.0)))). -/
def alphaPointFn (scale : ℚ) (v : ℕ) : ℕ :=
  ⌊min 255 (max 0 ((v : ℚ) * (scale / 255)))⌋.toNat

/-- Image.alpha_composite of a foreground pixel over a background pixel,
with exact rational alpha blending and rounding to 8 bits. -/
def compositePixel (bg fg : Pixel) : Pixel :=
  let fa : ℚ := (fg.a : ℚ) / 255
  let ba : ℚ := (bg.a : ℚ) / 255
  let outA : ℚ := fa + ba * (1 - fa)
  if outA = 0 then ⟨0, 0, 0, 0⟩
  else
    ⟨⌊(((fg.r : ℚ) * fa + (bg.r : ℚ) * ba * (1 - fa)) / outA) + 1 / 2⌋.toNat,
     ⌊(((fg.g : ℚ) * fa + (bg.g : ℚ) * ba * (1 - fa)) / outA) + 1 / 2⌋.toNat,
     ⌊(((fg.b : ℚ) * fa + (bg.b : ℚ) * ba * (1 - fa)) / outA) + 1 / 2⌋.toNat,
     ⌊outA * 255 + 1 / 2⌋.toNat⟩

/-- The function _rgba_heatmap_overlay of utils.py, per pixel, for the case in
which the heatmap already has the pixel dimensions of the base image, where
the bilinear resize samples every pixel at its own center and is the
identity. The tint layer is pure red with the alpha channel driven by the
quantized heatmap intensity, composited over the opaque base. -/
def rgbaHeatmapOverlay (base : ℕ → ℕ → Pixel) (heatmap : ℕ → ℕ → ℚ)
    (x y : ℕ) : Pixel :=
  compositePixel
    { base x y with a := 255 }
    ⟨255, 0, 0, alphaPointFn 192 (heatToU8 (heatmap x y))⟩

/-- The method GradCAM.overlay: an absent heatmap returns the base image
itself; otherwise the utils overlay runs on the base converted to RGB. -/
def gradCamOverlay (base : ℕ → ℕ → Pixel) (heatmap : Option (ℕ → ℕ → ℚ)) :
    ℕ → ℕ → Pixel :=
  match heatmap with
  | none => base
  | some hm => rgbaHeatmapOverlay base hm

/-- The function tensor_to_base64_overlay of utils.py: an absent heatmap
returns the empty string; otherwise the composited overlay is PNG encoded
(the encoder is an external collaborator, taken as a parameter) into a data
URI. -/
def tensorToBase64Overlay (encodePNG : (ℕ → ℕ → Pixel) → String)
    (base : ℕ → ℕ → Pixel) (heatmap : Option (ℕ → ℕ → ℚ)) : String :=
  match heatmap with
  | none => ""
  | some hm => "data:image/png;base64," ++ encodePNG (rgbaHeatmapOverlay base hm)

/-- Spec formulation of the per channel importance weight: the arithmetic mean
of the gradient of batch index 0 over all of its spatial positions. -/
def specChannelWeight (Hg Wg : ℕ) (gD : List ℕ → FP) (c : ℕ) : FP :=
  FP.div
    (listFPSum
      ((List.range Hg).flatMap
        (fun h => (List.range Wg).map (fun w => gD [0, c, h, w]))))
    (.fin ((Hg * Wg : ℕ) : ℚ))

/-- Spec formulation of the map before normalization: weighted sum over
channels of the activations of batch index 0 using the per channel weights,
with the rectifying floor applied to the summed map. -/
def specCamPreNorm (C Hg Wg : ℕ) (aD gD : List ℕ → FP) (h w : ℕ) : FP :=
  FP.relu
    (listFPSum
      ((List.range C).map
        (fun c => FP.mul (specChannelWeight Hg Wg gD c) (aD [0, c, h, w]))))

/-- The variant the spec rules out: the rectifying floor applied to each
channel contribution before the summation. -/
def altClampBeforeSum (C Hg Wg : ℕ) (aD gD : List ℕ → FP) (h w : ℕ) : FP :=
  sumR C (fun c => FP.relu (FP.mul (gradWeight Hg Wg gD c) (aD [0, c, h, w])))

theorem listFPSum_flatMap (l : List ℕ) (f : ℕ → List FP) :
    listFPSum (l.flatMap f) =
      l.foldr (fun x acc => FP.add (listFPSum (f x)) acc) (.fin 0) := by
  induction l with
  | nil => rfl
  | cons a t ih =>
      rw [List.flatMap_cons, listFPSum_append, List.foldr_cons, ih]

/-- The source weight computation agrees with the spec mean. -/
theorem gradWeight_eq_specChannelWeight (Hg Wg : ℕ) (gD : List ℕ → FP)
    (c : ℕ) : gradWeight Hg Wg gD c = specChannelWeight Hg Wg gD c := by
  have hfg : (fun h => sumR Wg (fun w => gD [0, c, h, w]))
      = fun x => listFPSum ((List.range Wg).map (fun w => gD [0, c, x, w])) := by
    funext h
    exact sumR_eq_listFPSum_map Wg _
  unfold gradWeight specChannelWeight
  rw [listFPSum_flatMap, congrArg (sumR Hg) hfg]
  rfl

/-- Spec formulation of auto-selection: last Conv2d under the features region
with its dotted name, else last Conv2d of the whole model, else none. -/
def specAutoSelect (model : NNModule) : Option (String × NNModule) :=
  match getAttr model "features" with
  | some f =>
      match ((namedModules f).filter (fun p => isConv p.2)).getLast? with
      | some p => some ("features." ++ p.1, p.2)
      | none => ((namedModules model).filter (fun p => isConv p.2)).getLast?
  | none => ((namedModules model).filter (fun p => isConv p.2)).getLast?

/-- Example model with a features region holding three convolutional layers
named in definition order. -/
def exampleFeaturesModel : NNModule :=
  .container
    [("features",
      .container [("convA", .conv2d 0), ("convB", .conv2d 1), ("convC", .conv2d 2)]),
     ("classifier", .leaf 9)]

/-- Example model without a features region but with convolutional layers
nested elsewhere. -/
def exampleNoFeaturesModel : NNModule :=
  .container
    [("stem", .leaf 0),
     ("blocks", .container [("c1", .conv2d 5), ("d", .leaf 1), ("c2", .conv2d 6)]),
     ("head", .leaf 2)]

/-- Example model whose features region has no convolutional layer while one
exists elsewhere in the model. -/
def featNoConvModel : NNModule :=
  .container [("features", .container [("pool", .leaf 3)]), ("tail", .conv2d 7)]

/-- Example model with no convolutional layer anywhere. -/
def noConvModel : NNModule := .container [("fc", .leaf 0)]

/-- Concrete activation tensor data for the clamp placement distinction. -/
def aEx : List ℕ → FP
  | [0, 0, _, _] => .fin 1
  | [0, 1, _, _] => .fin 2
  | _ => .fin 0

/-- Concrete gradient tensor data for the clamp placement distinction. -/
def gEx : List ℕ → FP
  | [0, 0, _, _] => .fin 1
  | [0, 1, _, _] => .fin (-1)
  | _ => .fin 0

/-- All-zero rank 4 tensor of shape 1, 1, 1, 1. -/
def zeroTensor4 : Tensor := ⟨[1, 1, 1, 1], fun _ => .fin 0⟩

/-- Rank 2 tensor of shape 2, 2. -/
def rank2Tensor : Tensor := ⟨[2, 2], fun _ => .fin 0⟩

/-- Engine state between calls: no hooks, empty buffers, model in eval mode. -/
def s0 : EngineState := ⟨0, none, none, false⟩

/-- Environment of a fully successful call. -/
def envOk : Env := ⟨some [1], some zeroTensor4, some zeroTensor4, false⟩

/-- Environment in which the forward pass raises. -/
def envForwardRaises : Env := ⟨none, none, none, false⟩

/-- Environment in which both captures succeed with rank 2 tensors. -/
def envRank2 : Env := ⟨some [0], some rank2Tensor, some rank2Tensor, false⟩

/-- Every arm of the post pass tail leaves the engine in the released state. -/
theorem getCamPostPass_state (s4 : EngineState) :
    (getCamPostPass s4).1 = releaseHook s4 := by
  obtain ⟨hk, acts, grds, tr⟩ := s4
  cases acts <;> cases grds
  · rfl
  · rfl
  · rfl
  · simp only [getCamPostPass]
    split <;> rfl

/-- The post pass tail never raises: it reports failures or returns a map. -/
theorem getCamPostPass_no_raise (s4 : EngineState) (e : CamExn) :
    (getCamPostPass s4).2 ≠ CamOutcome.raised e := by
  obtain ⟨hk, acts, grds, tr⟩ := s4
  cases acts <;> cases grds
  · simp [getCamPostPass]
  · simp [getCamPostPass]
  · simp [getCamPostPass]
  · simp only [getCamPostPass]
    split <;> simp

/-- No step of get_cam writes the training flag of the model. -/
theorem getCam_modelTraining (b : Bool) (env : Env) (tc : Option ℕ)
    (s : EngineState) : ((getCam b env tc s).1).modelTraining = s.modelTraining := by
  obtain ⟨fr, ac, gc, br⟩ := env
  cases b
  · rfl
  · cases fr with
    | none => rfl
    | some logits =>
        simp only [getCam, getCamAfterInstrument, getCamAfterForward, if_true]
        by_cases hsel : selectedClass logits tc < logits.length
        · rw [if_pos hsel]
          cases br
          · rw [if_neg (by simp)]
            rw [getCamPostPass_state]
            rfl
          · rfl
        · rw [if_neg hsel]
          rfl

/-- The prefixed filterMap of the candidate loop is the filtered enumeration
with the prefix mapped over it. -/
theorem filterMap_conv_eq (l : List (String × NNModule)) :
    l.filterMap (fun p => if isConv p.2 then some ("features." ++ p.1, p.2) else none)
      = (l.filter (fun p => isConv p.2)).map (fun p => ("features." ++ p.1, p.2)) := by
  induction l with
  | nil => rfl
  | cons a t ih =>
      by_cases hc : isConv a.2
      · simp [List.filterMap_cons, List.filter_cons, hc, ih]
      · simp [List.filterMap_cons, List.filter_cons, hc, ih]

/-- The source auto-selection agrees with the spec description. -/
theorem autoSelect_eq_spec (model : NNModule) :
    autoSelectTargetLayer model = specAutoSelect model := by
  unfold autoSelectTargetLayer specAutoSelect featuresConvCandidates
  cases hA : getAttr model "features" with
  | none => simp
  | some f =>
      simp only []
      rw [filterMap_conv_eq]
      cases hL : ((namedModules f).filter (fun p => isConv p.2)).getLast? with
      | none =>
          have hnil : (namedModules f).filter (fun p => isConv p.2) = [] :=
            List.getLast?_eq_none_iff.mp hL
          simp [hnil]
      | some p =>
          have hne : (namedModules f).filter (fun p => isConv p.2) ≠ [] := by
            intro hc
            rw [hc] at hL
            simp at hL
          have hmapne : (((namedModules f).filter (fun p => isConv p.2)).map
              (fun p => ("features." ++ p.1, p.2))) ≠ [] := by
            simpa using hne
          rw [if_neg (by simpa [List.isEmpty_iff] using hmapne)]
          rw [List.getLast?_map, hL]
          rfl

/-- The source combination step agrees with the spec formulation pointwise. -/
theorem camPreNorm_eq_specAux (C Hg Wg : ℕ) (aD gD : List ℕ → FP) (h w : ℕ) :
    camPreNorm C Hg Wg aD gD h w = specCamPreNorm C Hg Wg aD gD h w := by
  unfold camPreNorm specCamPreNorm
  rw [sumR_eq_listFPSum_map]
  have hfun : (fun c => FP.mul (gradWeight Hg Wg gD c) (aD [0, c, h, w]))
      = fun c => FP.mul (specChannelWeight Hg Wg gD c) (aD [0, c, h, w]) := by
    funext c
    rw [gradWeight_eq_specChannelWeight]
  rw [hfun]

/-- C1: every element of a heatmap returned by get_cam is a rational in the
closed interval from 0 to 1; and whenever the rectified combined map is not
entirely finite with positive maximum, the normalization step returns the
uniformly zero map of the same shape rather than an error. -/
theorem c1_returned_heatmap_in_unit_range :
    (∀ (b : Bool) (env : Env) (tc : Option ℕ) (s : EngineState)
        (H W : ℕ) (f : ℕ → ℕ → FP),
        (getCam b env tc s).2 = CamOutcome.heatmap H W f →
        ∀ h w, h < H → w < W → ∃ q, f h w = FP.fin q ∧ 0 ≤ q ∧ q ≤ 1)
    ∧ (∀ (H W : ℕ) (g : ℕ → ℕ → FP),
        ¬ (mapAllFinite H W g = true ∧ 0 < mapMaxQ H W g) →
        ∀ h w, normalizeCam H W g h w = FP.fin 0) := by
  constructor
  · intro b env tc s H W f hout h w hh hw
    obtain ⟨fr, ac, gc, br⟩ := env
    cases b
    · simp [getCam] at hout
    · cases fr with
      | none => simp [getCam, getCamAfterInstrument] at hout
      | some logits =>
          by_cases hsel : selectedClass logits tc < logits.length
          · cases br with
            | true =>
                simp [getCam, getCamAfterInstrument, getCamAfterForward, hsel] at hout
            | false =>
                simp only [getCam, getCamAfterInstrument, getCamAfterForward,
                  if_pos hsel, if_true] at hout
                rw [if_neg (by simp)] at hout
                cases hac : ac with
                | none => simp [getCamPostPass, hac] at hout
                | some a =>
                    cases hgc : gc with
                    | none => simp [getCamPostPass, hac, hgc] at hout
                    | some g =>
                        simp [getCamPostPass, hac, hgc] at hout
                        split at hout
                        · simp at hout
                        · injection hout with h1 h2 h3
                          subst h1
                          subst h2
                          subst h3
                          exact normalizeCam_mem_unitInterval _ _ _
                            (camPreNorm_rect _ _ _ _ _) h w hh hw
          · simp [getCam, getCamAfterInstrument, getCamAfterForward, hsel] at hout
  · intro H W g hng h w
    have hcond : ¬ ((mapAllFinite H W g && decide (0 < mapMaxQ H W g)) = true) := by
      intro hc
      rw [Bool.and_eq_true] at hc
      exact hng ⟨hc.1, of_decide_eq_true hc.2⟩
    simp [normalizeCam, hcond]

/-- C1 witness: a successful call on an all-zero capture yields a value in the
unit interval, and a degenerate map normalizes to zero. -/
theorem c1_witness :
    (∃ q, gradCamMap 1 1 1 1 1 zeroTensor4.data zeroTensor4.data 0 0 = FP.fin q
        ∧ 0 ≤ q ∧ q ≤ 1)
    ∧ normalizeCam 0 0 (fun _ _ => FP.fin 0) 0 0 = FP.fin 0 := by
  constructor
  · exact c1_returned_heatmap_in_unit_range.1 true envOk (some 0) s0 1 1 _ rfl
      0 0 (by decide) (by decide)
  · apply c1_returned_heatmap_in_unit_range.2 0 0 (fun _ _ => FP.fin 0) ?_ 0 0
    intro hcontra
    have h2 := hcontra.2
    rw [show mapMaxQ 0 0 (fun _ _ => FP.fin 0) = 0 from rfl] at h2
    exact absurd h2 (by norm_num)

/-- C2: the pre-normalization map of get_cam equals the spec formula: batch
index 0 of both tensors, per channel spatial mean of the gradient as weight,
weighted sum over channels of the activations, rectification after the
summation; and rectifying per channel before the summation is a different
function, as a concrete input shows. -/
theorem c2_preNorm_is_weighted_sum_then_relu :
    (∀ (C Hg Wg : ℕ) (aD gD : List ℕ → FP) (h w : ℕ),
        camPreNorm C Hg Wg aD gD h w = specCamPreNorm C Hg Wg aD gD h w)
    ∧ camPreNorm 2 1 1 aEx gEx 0 0 = FP.fin 0
    ∧ altClampBeforeSum 2 1 1 aEx gEx 0 0 = FP.fin 1 :=
  ⟨camPreNorm_eq_specAux,
   by norm_num [camPreNorm, sumR, gradWeight, List.range_succ, aEx, gEx,
     FP.mul, FP.div, FP.add, FP.relu],
   by norm_num [altClampBeforeSum, sumR, gradWeight, List.range_succ, aEx, gEx,
     FP.mul, FP.div, FP.add, FP.relu]⟩

/-- C3 counterexample: when the forward pass raises, get_cam propagates the
exception without removing the forward hook, so the observer count between
calls is not zero: starting from a clean state it is 1. -/
theorem c3_counterexample :
    ¬ ((getCam true envForwardRaises none s0).1.targetHooks = 0) := by
  decide

/-- C3 amended: the forward observer is released on the success path and on
every reported failure path, restoring the hook count; but when an exception
is raised during the forward pass, class selection, or backward pass, the
call ends with the observer still attached, leaving the count incremented. -/
theorem c3_hook_release_amended :
    ∀ (b : Bool) (env : Env) (tc : Option ℕ) (s : EngineState),
    ((∀ e, (getCam b env tc s).2 ≠ CamOutcome.raised e) →
        ((getCam b env tc s).1).targetHooks = s.targetHooks)
    ∧ (∀ e, (getCam b env tc s).2 = CamOutcome.raised e →
        ((getCam b env tc s).1).targetHooks = s.targetHooks + 1) := by
  intro b env tc s
  obtain ⟨fr, ac, gc, br⟩ := env
  cases b
  · exact ⟨fun _ => rfl, fun e he => by simp [getCam] at he⟩
  · cases fr with
    | none =>
        exact ⟨fun hne => absurd rfl (hne .forwardError), fun e _ => rfl⟩
    | some logits =>
        by_cases hsel : selectedClass logits tc < logits.length
        · cases br with
          | false =>
              constructor
              · intro _
                simp only [getCam, getCamAfterInstrument, getCamAfterForward,
                  if_pos hsel, if_true]
                rw [if_neg (by simp)]
                rw [getCamPostPass_state]
                rfl
              · intro e he
                exfalso
                simp only [getCam, getCamAfterInstrument, getCamAfterForward,
                  if_pos hsel, if_true] at he
                rw [if_neg (by simp)] at he
                exact getCamPostPass_no_raise _ e he
          | true =>
              constructor
              · intro hne
                exfalso
                apply hne .backwardError
                simp [getCam, getCamAfterInstrument, getCamAfterForward, hsel]
              · intro e _
                simp [getCam, getCamAfterInstrument, getCamAfterForward, hsel,
                  instrumentState, clearCaptures]
        · constructor
          · intro hne
            exfalso
            apply hne .classIndexError
            simp [getCam, getCamAfterInstrument, getCamAfterForward, hsel]
          · intro e _
            simp [getCam, getCamAfterInstrument, getCamAfterForward, hsel,
              instrumentState, clearCaptures]

/-- C3 witness: a fully successful call restores the hook count. -/
theorem c3_witness : (getCam true envOk (some 0) s0).1.targetHooks = s0.targetHooks := by
  apply (c3_hook_release_amended true envOk (some 0) s0).1
  intro e he
  cases e <;> simp [getCam, getCamAfterInstrument, getCamAfterForward,
    getCamPostPass, envOk, s0, instrumentState, clearCaptures, selectedClass,
    releaseHook, zeroTensor4] at he

/-- C4: auto-selection, characterized against the spec description (last
Conv2d under features by enumeration order, else last Conv2d of the whole
model, else none), together with the definition-order instances: three convs
A, B, C under features select C, a featureless model selects its last conv,
a features region without convs falls back to the whole model, and a model
without convs makes construction fail with the no-target error. -/
theorem c4_auto_selection_last_conv :
    (∀ model : NNModule, autoSelectTargetLayer model = specAutoSelect model)
    ∧ autoSelectTargetLayer exampleFeaturesModel
        = some ("features.convC", NNModule.conv2d 2)
    ∧ autoSelectTargetLayer exampleNoFeaturesModel
        = some ("blocks.c2", NNModule.conv2d 6)
    ∧ autoSelectTargetLayer featNoConvModel = some ("tail", NNModule.conv2d 7)
    ∧ autoSelectTargetLayer noConvModel = none
    ∧ (gradCamInit noConvModel none false).2 = Except.error InitError.noTargetLayerFound :=
  ⟨autoSelect_eq_spec, rfl, rfl, rfl, rfl, rfl⟩

/-- C5: with a caller-supplied dotted path, construction resolves segment by
segment and errors with the layer-not-found report exactly when resolution
fails, never consulting auto-selection; a missing segment fails even though
auto-selection would have succeeded on the same model, and a path resolving
to a non-convolutional module is accepted verbatim. -/
theorem c5_resolve_layer_no_fallback :
    (∀ (model : NNModule) (parts : List String) (tr : Bool),
        (gradCamInit model (some parts) tr).2 =
          match getModuleByName model parts with
          | none => Except.error (InitError.layerNotFound parts)
          | some m => Except.ok (String.intercalate "." parts, m, ⟨0, none, none, false⟩))
    ∧ (gradCamInit exampleFeaturesModel (some ["features", "nonexistent"]) true).2
        = Except.error (InitError.layerNotFound ["features", "nonexistent"])
    ∧ (autoSelectTargetLayer exampleFeaturesModel).isSome = true
    ∧ (gradCamInit exampleFeaturesModel (some ["classifier"]) true).2
        = Except.ok ("classifier", NNModule.leaf 9, ⟨0, none, none, false⟩)
    ∧ isConv (NNModule.leaf 9) = false :=
  ⟨fun _ _ _ => rfl, rfl, rfl, rfl, rfl⟩

/-- C6: for a call that completes its forward and backward passes, the
outcome is determined after the pass by the capture buffers: an empty buffer
reports the capture-missing failure, tensors that are not rank 4 report the
rank failure carrying both observed shapes, and otherwise the heatmap is
returned; the two failures are distinct constructors, so the reported
reasons are distinguishable. -/
theorem c6_capture_and_rank_failures :
    ∀ (env : Env) (tc : Option ℕ) (s : EngineState) (logits : List ℚ),
    env.forwardResult = some logits →
    selectedClass logits tc < logits.length →
    env.backwardRaises = false →
    (getCam true env tc s).2 =
      match env.actCapture, env.gradCapture with
      | none, _ => CamOutcome.failure CamFailure.captureMissing
      | some _, none => CamOutcome.failure CamFailure.captureMissing
      | some a, some g =>
          if a.shape.length != 4 || g.shape.length != 4 then
            CamOutcome.failure (CamFailure.unexpectedTensorRank a.shape g.shape)
          else
            CamOutcome.heatmap (a.shape.getD 2 0) (a.shape.getD 3 0)
              (gradCamMap (a.shape.getD 1 0) (a.shape.getD 2 0) (a.shape.getD 3 0)
                (g.shape.getD 2 0) (g.shape.getD 3 0) a.data g.data) := by
  intro env tc s logits hf hsel hbr
  simp only [getCam, if_true, getCamAfterInstrument, hf]
  simp only [getCamAfterForward, if_pos hsel, hbr]
  rw [if_neg (by simp)]
  cases hac : env.actCapture with
  | none => simp [getCamPostPass, hac]
  | some a =>
      cases hgc : env.gradCapture with
      | none => simp [getCamPostPass, hac, hgc]
      | some g =>
          simp [getCamPostPass, hac, hgc]
          split <;> rfl

/-- C6 witness: rank 2 captures report the rank failure with both shapes. -/
theorem c6_witness : (getCam true envRank2 (some 0) s0).2
    = CamOutcome.failure (CamFailure.unexpectedTensorRank [2, 2] [2, 2]) := by
  have h := c6_capture_and_rank_failures envRank2 (some 0) s0 [0] rfl (by decide) rfl
  exact h.trans rfl

/-- C7 counterexample: construction does not leave the training mode of the
model unchanged: a model constructed in training mode is switched to
inference mode by the eval call of the constructor. -/
theorem c7_counterexample :
    ¬ ((gradCamInit exampleFeaturesModel none true).1 = true) := by
  decide

/-- C7 amended: constructing the engine always leaves the model in inference
mode (training flag false), whatever mode it was in; computing a heatmap
never changes the training mode of the model. -/
theorem c7_training_mode_amended :
    (∀ (model : NNModule) (tl : Option (List String)) (tr : Bool),
        (gradCamInit model tl tr).1 = false)
    ∧ (∀ (b : Bool) (env : Env) (tc : Option ℕ) (s : EngineState),
        ((getCam b env tc s).1).modelTraining = s.modelTraining) :=
  ⟨fun _ _ _ => rfl, getCam_modelTraining⟩

/-- C8: the capture buffers are both empty at the moment instrumentation is
attached, in every call and from every prior state, and the whole call
(result and final state) is independent of whatever the buffers held when
the call began, so no capture state can leak across calls. -/
theorem c8_capture_buffers_fresh_per_call :
    (∀ (env : Env) (tc : Option ℕ) (hooks : ℕ) (tr : Bool)
        (a1 g1 a2 g2 : Option Tensor),
        getCam true env tc ⟨hooks, a1, g1, tr⟩ = getCam true env tc ⟨hooks, a2, g2, tr⟩)
    ∧ (∀ s : EngineState,
        (instrumentState s).activations = none ∧ (instrumentState s).gradients = none) :=
  ⟨fun _ _ _ _ _ _ _ _ => rfl, fun _ => ⟨rfl, rfl⟩⟩

/-- C9: on a 4 by 4 all-ones heatmap over a solid black base of the same
size, every pixel of the rendered overlay is the alpha blend of pure red at
alpha 192 over black, an opaque pixel with red 192; and in general the alpha
assigned to a resampled intensity v is the linear scaling of v into the
range 0 to 192, quantized by the floor. -/
theorem c9_overlay_composition :
    (∀ x y, rgbaHeatmapOverlay (fun _ _ => ⟨0, 0, 0, 255⟩) (fun _ _ => 1) x y
        = ⟨192, 0, 0, 255⟩)
    ∧ (∀ v : ℕ, v ≤ 255 →
        alphaPointFn 192 v = ⌊(v : ℚ) * 192 / 255⌋.toNat ∧ alphaPointFn 192 v ≤ 192) := by
  constructor
  · intro x y
    have h1 : heatToU8 1 = 255 := by
      norm_num [heatToU8, clip01]
      rfl
    have h2 : alphaPointFn 192 255 = 192 := by
      norm_num [alphaPointFn]
      rfl
    show compositePixel ⟨0, 0, 0, 255⟩ ⟨255, 0, 0, alphaPointFn 192 (heatToU8 1)⟩
        = ⟨192, 0, 0, 255⟩
    rw [h1, h2]
    norm_num [compositePixel]
    omega
  · intro v hv
    have hvq : (v : ℚ) ≤ 255 := by exact_mod_cast hv
    have hx0 : (0 : ℚ) ≤ (v : ℚ) * (192 / 255) := by positivity
    have hxle : (v : ℚ) * (192 / 255) ≤ 192 := by
      calc (v : ℚ) * (192 / 255) ≤ 255 * (192 / 255) :=
            mul_le_mul_of_nonneg_right hvq (by norm_num)
        _ = 192 := by norm_num
    have hmin : min 255 (max 0 ((v : ℚ) * (192 / 255))) = (v : ℚ) * (192 / 255) := by
      rw [max_eq_right hx0, min_eq_right (le_trans hxle (by norm_num))]
    constructor
    · unfold alphaPointFn
      rw [hmin]
      congr 2
      ring
    · unfold alphaPointFn
      rw [hmin]
      have hfl : ⌊(v : ℚ) * (192 / 255)⌋ ≤ 192 := by
        have := Int.floor_le_floor hxle
        simpa using this
      exact Int.toNat_le.mpr (by exact_mod_cast hfl)

/-- C9 witness: the hottest intensity 255 is mapped to alpha exactly 192. -/
theorem c9_witness :
    alphaPointFn 192 255 = ⌊((255 : ℕ) : ℚ) * 192 / 255⌋.toNat
      ∧ alphaPointFn 192 255 ≤ 192 :=
  c9_overlay_composition.2 255 (by decide)

/-- C10: an absent heatmap never raises at the rendering boundary: the data
URI encoder returns the empty string and the overlay method returns the base
image itself. -/
theorem c10_absent_heatmap_no_raise :
    (∀ (encodePNG : (ℕ → ℕ → Pixel) → String) (base : ℕ → ℕ → Pixel),
        tensorToBase64Overlay encodePNG base none = "")
    ∧ (∀ base : ℕ → ℕ → Pixel, gradCamOverlay base none = base) :=
  ⟨fun _ _ => rfl, fun _ => rfl⟩
